import Mathlib

/-!
Shallow embedding of the Meeting Minutes real-time translation core
(`MeetingMinutesSegmentSplitter.ts`, `MeetingMinutesRealtimeTranslation.tsx`,
`useRealtimeTranslation.ts`) and proofs about it.

Text is modelled as `List Char`. JavaScript string truthiness after `.trim()`
is modelled by `nonblank`; `String.prototype.trim` by `trimChars`.
-/

/-- Whitespace characters removed by JavaScript `String.prototype.trim`
(ASCII whitespace, NBSP, ideographic space, BOM). -/
def isJsWhitespace (c : Char) : Bool :=
  c == ' ' || c == '\t' || c == '\n' || c == '\r' || c == '\x0b' ||
  c == '\x0c' || c == ' ' || c == '　' || c == '﻿'

/-- `s.trim()` is truthy / `s.trim().length > 0`: some character is not whitespace. -/
def nonblank (s : List Char) : Bool :=
  s.any (fun c => !(isJsWhitespace c))

/-- Embedding of JavaScript `s.trim()`. -/
def trimChars (s : List Char) : List Char :=
  ((s.dropWhile isJsWhitespace).reverse.dropWhile isJsWhitespace).reverse

/-- `SENTENCE_DELIMITERS` table of `MeetingMinutesSegmentSplitter.ts`:
`'ja-JP': ['。', '?']`, `'en-US': ['.', '?']`; other keys are absent. -/
def sentenceDelimiters (languageCode : String) : Option (List Char) :=
  if languageCode = "ja-JP" then some ['。', '?']
  else if languageCode = "en-US" then some ['.', '?']
  else none

/-- `supportsSentenceTranslation` (`MeetingMinutesSegmentSplitter.ts` lines 26-30):
`languageCode !== undefined && languageCode in SENTENCE_DELIMITERS`. -/
def supportsSentenceTranslation (languageCode : Option String) : Bool :=
  match languageCode with
  | none => false
  | some l => (sentenceDelimiters l).isSome

/-- Embedding of `text.split(pattern)` where `pattern` is a regex capturing one
delimiter character (line 76-79 of the splitter): the result alternates between
(possibly empty) non-delimiter chunks and single-character delimiter matches,
beginning and ending with a chunk. -/
def splitCapture (delims : List Char) : List Char → List (List Char)
  | [] => [[]]
  | c :: cs =>
    if c ∈ delims then
      [] :: [c] :: splitCapture delims cs
    else
      match splitCapture delims cs with
      | [] => [[c]]
      | p :: ps => (c :: p) :: ps

/-- Embedding of the reconstruction loop of `splitIntoSentences`
(lines 83-91): walk the parts two at a time, combine each chunk with its
following delimiter (`parts[i + 1] || ''`), keep the combination when its trim
is non-empty. -/
def pairUp : List (List Char) → List (List Char)
  | [] => []
  | [s] => if nonblank s then [s] else []
  | s :: d :: rest =>
    if nonblank (s ++ d) then (s ++ d) :: pairUp rest else pairUp rest

/-- `splitIntoSentences` (`MeetingMinutesSegmentSplitter.ts` lines 60-94).
For an unsupported or absent language code it returns `text.trim() ? [text] : []`;
otherwise it splits on the language's delimiters keeping them, and finally
filters out blank sentences (the source's trailing `.filter`). -/
def splitIntoSentences (text : List Char) (languageCode : Option String) :
    List (List Char) :=
  match languageCode with
  | none => if nonblank text then [text] else []
  | some l =>
    match sentenceDelimiters l with
    | none => if nonblank text then [text] else []
    | some delims => (pairUp (splitCapture delims text)).filter nonblank

/-- Restatement of the splitting rule in the words of the specification
(section 4.1): scan the text accumulating a span; every occurrence of a
delimiter closes the current span, the delimiter included, as one sentence;
the trailing non-terminated remainder is emitted as a final sentence; spans
that are empty or whitespace-only are dropped. Compared against
`splitIntoSentences` in the claim-5 theorem. -/
def splitSpecAux (delims : List Char) : List Char → List Char → List (List Char)
  | [], acc => if nonblank acc then [acc] else []
  | c :: cs, acc =>
    if c ∈ delims then
      (if nonblank (acc ++ [c]) then [acc ++ [c]] else []) ++ splitSpecAux delims cs []
    else
      splitSpecAux delims cs (acc ++ [c])

/-- Specification-side splitter: scan with an empty initial span. -/
def splitSpec (delims : List Char) (text : List Char) : List (List Char) :=
  splitSpecAux delims text []

example : splitIntoSentences "こんにちは。今日は晴れです。".toList (some "ja-JP") =
    ["こんにちは。".toList, "今日は晴れです。".toList] := by decide

example : splitIntoSentences "A. C.".toList (some "en-US") =
    ["A.".toList, " C.".toList] := by decide

example : splitIntoSentences "Bonjour. Ça va?".toList (some "fr-FR") =
    ["Bonjour. Ça va?".toList] := by decide

example : splitIntoSentences " a ".toList (some "fr-FR") = [" a ".toList] := by decide

/-- `TranslationSegment` (`MeetingMinutesSegmentSplitter.ts` lines 126-132):
one sentence's translation lifecycle state. -/
structure TranslationSegment where
  text : List Char
  needsTranslation : Bool
  translation : Option (List Char)
  lastTranslatedText : Option (List Char)
  requestTimestamp : Option Nat
deriving DecidableEq, Repr

/-- Loop body of `updateTranslationSegments` (lines 151-176): the source maps
over `newSentences` with an index and reads `existingSegments[index]`; here the
index alignment is realised by walking the two lists in lockstep (`existing`
shrinks together with the index). A missing previous record yields a fresh
segment, identical text keeps the previous record, differing text keeps the
previous record's translation fields but replaces `text` and recomputes
`needsTranslation` from the new sentence. -/
def updateLoop : List TranslationSegment → List (List Char) → List TranslationSegment
  | _, [] => []
  | [], sentence :: rest =>
    { text := sentence, needsTranslation := nonblank sentence,
      translation := none, lastTranslatedText := none,
      requestTimestamp := none } :: updateLoop [] rest
  | existingSegment :: es, sentence :: rest =>
    (if existingSegment.text = sentence then
      existingSegment
    else
      { existingSegment with
        text := sentence, needsTranslation := nonblank sentence }) :: updateLoop es rest

/-- `updateTranslationSegments` (`MeetingMinutesSegmentSplitter.ts` lines
144-177): re-split the new text and reconcile against the existing segments. -/
def updateTranslationSegments (newText : List Char) (languageCode : Option String)
    (existingSegments : List TranslationSegment) : List TranslationSegment :=
  updateLoop existingSegments (splitIntoSentences newText languageCode)

/-- The `'microphone' | 'screen'` source tag of `RealtimeSegment`. -/
inductive Source where
  | microphone
  | screen
deriving DecidableEq, Repr

/-- One element of the `transcripts` array (`Transcript`): the recognised text
and an optional speaker label. -/
structure Transcript where
  transcript : List Char
  speakerLabel : Option String
deriving DecidableEq, Repr

/-- `RealtimeSegment` (`MeetingMinutesRealtimeTranslation.tsx` lines 66-76).
`startTime`/`endTime` are floating-point seconds in the source; no claim
computes with them, so they are carried as integers. -/
structure RealtimeSegment where
  resultId : String
  source : Source
  startTime : Int
  endTime : Int
  isPartial : Bool
  transcripts : List Transcript
  sessionId : Nat
  languageCode : Option String
  translationSegments : List TranslationSegment
deriving DecidableEq, Repr

/-- Identity key of a timeline entry: `(resultId, source)`. -/
def segKey (seg : RealtimeSegment) : String × Source :=
  (seg.resultId, seg.source)

/-- The concatenated text of an update
(`newSegment.transcripts.map((t) => t.transcript).join(' ').trim()`,
`MeetingMinutesRealtimeTranslation.tsx` lines 476-479). -/
def currentTextOf (seg : RealtimeSegment) : List Char :=
  trimChars (List.intercalate [' '] (seg.transcripts.map Transcript.transcript))

/-- Recursion realising `findIndex` + replace-at-index / push of
`updateRealtimeSegments` (lines 469-513): replace the first entry whose
`(resultId, source)` matches, else append. -/
def upsertGo (n : RealtimeSegment) (currentText : List Char) :
    List RealtimeSegment → List RealtimeSegment
  | [] =>
    [{ n with translationSegments :=
                updateTranslationSegments currentText n.languageCode [] }]
  | seg :: rest =>
    if seg.resultId = n.resultId ∧ seg.source = n.source then
      { n with translationSegments :=
                 updateTranslationSegments currentText n.languageCode
                   seg.translationSegments } :: rest
    else
      seg :: upsertGo n currentText rest

/-- `updateRealtimeSegments` (`MeetingMinutesRealtimeTranslation.tsx` lines
467-516): keyed upsert of a raw transcript update into the timeline. -/
def updateRealtimeSegments (prev : List RealtimeSegment) (n : RealtimeSegment) :
    List RealtimeSegment :=
  upsertGo n (currentTextOf n) prev

/-- Core component state: the timeline collection, the session counter and the
side index `latestRequestTimestamps : Map<string, number>`
(`MeetingMinutesRealtimeTranslation.tsx` lines 119-156) modelled as an
insertion-ordered association list, as a JavaScript `Map` is. -/
structure CoreState where
  realtimeSegments : List RealtimeSegment
  currentSessionId : Nat
  latestRequestTimestamps : List (String × Nat)
deriving DecidableEq, Repr

/-- `Map.set`: update the value of an existing key in place, else append. -/
def mapSet (m : List (String × Nat)) (k : String) (v : Nat) : List (String × Nat) :=
  match m with
  | [] => [(k, v)]
  | (k', v') :: rest =>
    if k' = k then (k, v) :: rest else (k', v') :: mapSet rest k v

/-- `Map.get`: value of the first (unique) matching key. -/
def mapGet (m : List (String × Nat)) (k : String) : Option Nat :=
  match m with
  | [] => none
  | (k', v') :: rest => if k' = k then some v' else mapGet rest k

/-- The side-index key `` `${segment.resultId}-${sentenceIndex}` ``
(`MeetingMinutesRealtimeTranslation.tsx` line 169). -/
def timestampKey (resultId : String) (sentenceIndex : Nat) : String :=
  resultId ++ "-" ++ toString sentenceIndex

/-- Apply `f` at position `i`, realising the source's
`.map((ts, index) => index !== i ? ts : f(ts))` pattern. -/
def mapAtIdx {α : Type} : List α → Nat → (α → α) → List α
  | [], _, _ => []
  | x :: xs, 0, f => f x :: xs
  | x :: xs, n + 1, f => x :: mapAtIdx xs n f

/-- Issuance step of `translateSentence` (lines 169-203): record
`requestTimestamp = Date.now()` in the side index under
`` `${resultId}-${sentenceIndex}` `` and stamp it onto the sentence's
`TranslationSegment`. -/
def issueRequest (s : CoreState) (resultId : String) (source : Source)
    (sentenceIndex : Nat) (requestTimestamp : Nat) : CoreState :=
  { s with
    latestRequestTimestamps :=
      mapSet s.latestRequestTimestamps (timestampKey resultId sentenceIndex)
        requestTimestamp,
    realtimeSegments := s.realtimeSegments.map fun seg =>
      if seg.resultId = resultId ∧ seg.source = source then
        { seg with translationSegments :=
            mapAtIdx seg.translationSegments sentenceIndex fun ts =>
              { ts with requestTimestamp := some requestTimestamp } }
      else seg }

/-- JavaScript `translation || undefined` (line 269): an empty-string result is
stored as `undefined`. -/
def jsOrUndefined (r : Option (List Char)) : Option (List Char) :=
  match r with
  | some t => if t.isEmpty then none else some t
  | none => none

/-- Resolution step of `translateSentence` (lines 242-283). The gate at line
243 reads `latestRequestTimestamps.get(requestId)` from the React state value
captured when that `useCallback` instance was created — not from the state at
commit time — so that snapshot is a separate argument `closureTimestamps`.
The dispatch interval's effect (lines 604-637) deliberately omits
`translateSentence` from its dependency list, so it invokes one pinned
instance whose captured map predates every request of the session; each
`setLatestRequestTimestamps` builds a `new Map(prev)`, so old closures never
see later entries. The commit itself goes through `setRealtimeSegments` with
a functional update and therefore applies to the commit-time state `s`.
`result` is the value of the awaited `translate` call (`none` models both a
`null` result and the caught-exception path, neither of which mutates state).
The guard mirrors `const isLatestRequest = !currentLatestTimestamp ||
requestTimestamp >= currentLatestTimestamp` (`!x` is true for a missing entry
and for the value 0) and `if (isLatestRequest && translation !== null)`.
`dispatchedText` is the `translationSegment.text` snapshot captured at
dispatch. -/
def resolveRequest (s : CoreState) (closureTimestamps : List (String × Nat))
    (resultId : String) (source : Source) (sentenceIndex : Nat)
    (requestTimestamp : Nat) (dispatchedText : List Char)
    (result : Option (List Char)) : CoreState :=
  let currentLatestTimestamp :=
    mapGet closureTimestamps (timestampKey resultId sentenceIndex)
  let isLatestRequest :=
    match currentLatestTimestamp with
    | none => true
    | some l => l == 0 || requestTimestamp ≥ l
  if isLatestRequest && result.isSome then
    { s with realtimeSegments := s.realtimeSegments.map fun seg =>
        if seg.resultId = resultId ∧ seg.source = source then
          { seg with translationSegments :=
              mapAtIdx seg.translationSegments sentenceIndex fun ts =>
                { ts with
                  translation := jsOrUndefined result,
                  needsTranslation := decide (ts.text ≠ dispatchedText),
                  lastTranslatedText := some dispatchedText } }
        else seg }
  else s

/-- `handleClear` (`MeetingMinutesRealtimeTranslation.tsx` lines 657-675),
restricted to the core state it touches: `setRealtimeSegments([])` and
`setCurrentSessionId(0)`. The remaining calls reset collaborator state
(microphone/screen hooks, parent callback). No call in the handler touches
`latestRequestTimestamps`. -/
def handleClear (s : CoreState) : CoreState :=
  { s with realtimeSegments := [], currentSessionId := 0 }

/-- `getTranslationTarget` (`MeetingMinutesRealtimeTranslation.tsx` lines
39-63). `detected = none` models `undefined`; the `d = ""` disjunct models the
falsiness of the empty string in `!detectedLanguageCode`. -/
def getTranslationTarget (translationType : String) (detected : Option String)
    (primaryLanguage secondaryLanguage : String) : String :=
  match detected with
  | none => secondaryLanguage
  | some d =>
    if translationType ≠ "bidirectional" ∨ d = "" then secondaryLanguage
    else if d = primaryLanguage then secondaryLanguage
    else if d = secondaryLanguage then primaryLanguage
    else secondaryLanguage

/-- Primary subtag of a BCP-47 style tag: the part before the first `-`. -/
def primarySubtag (code : String) : List Char :=
  code.toList.takeWhile (fun c => c ≠ '-')

/-- Modelled from the spec: the claim-10 reading of `supportsLanguage` —
"exact tag match, then primary-subtag fallback (e.g. "fr-FR" → "fr")" —
against the supported tags `ja-JP` and `en-US`. No such fallback exists in
`MeetingMinutesSegmentSplitter.ts`; this definition exists only to be compared
with `supportsSentenceTranslation`. -/
def supportsLanguageClaim (languageCode : Option String) : Bool :=
  match languageCode with
  | none => false
  | some l =>
    ["ja-JP", "en-US"].contains l ||
      ["ja-JP", "en-US"].any (fun t => primarySubtag t = primarySubtag l)

/-! ### Lemmas about the sentence splitter -/

/-- Prepend characters onto the first part of a parts list (used to relate the
chunked representation of `splitCapture` to the scanning representation of
`splitSpecAux`). -/
def consHead (a : List Char) : List (List Char) → List (List Char)
  | [] => [a]
  | p :: ps => (a ++ p) :: ps

lemma splitCapture_ne_nil (delims : List Char) (cs : List Char) :
    splitCapture delims cs ≠ [] := by
  cases cs with
  | nil => simp [splitCapture]
  | cons c cs =>
    by_cases h : c ∈ delims
    · simp [splitCapture, h]
    · simp only [splitCapture, if_neg h]
      cases hs : splitCapture delims cs with
      | nil => simp
      | cons p ps => simp

lemma consHead_nil_of_ne (l : List (List Char)) (h : l ≠ []) :
    consHead [] l = l := by
  cases l with
  | nil => exact absurd rfl h
  | cons p ps => simp [consHead]

lemma pairUp_consHead_splitCapture (delims : List Char) :
    ∀ (cs acc : List Char),
      pairUp (consHead acc (splitCapture delims cs)) = splitSpecAux delims cs acc := by
  intro cs
  induction cs with
  | nil =>
    intro acc
    simp [splitCapture, consHead, pairUp, splitSpecAux]
  | cons c cs ih =>
    intro acc
    by_cases h : c ∈ delims
    · simp only [splitCapture, if_pos h, consHead, List.append_nil, pairUp,
        splitSpecAux]
      have hrw : pairUp (splitCapture delims cs) = splitSpecAux delims cs [] := by
        rw [← consHead_nil_of_ne _ (splitCapture_ne_nil delims cs)]
        exact ih []
      rw [hrw]
      by_cases hb : nonblank (acc ++ [c]) <;> simp [hb]
    · simp only [splitSpecAux, if_neg h]
      simp only [splitCapture, if_neg h]
      cases hs : splitCapture delims cs with
      | nil => exact absurd hs (splitCapture_ne_nil delims cs)
      | cons p ps =>
        have hx := ih (acc ++ [c])
        rw [hs] at hx
        simp only [consHead] at hx ⊢
        rw [show acc ++ c :: p = (acc ++ [c]) ++ p by simp]
        exact hx

lemma splitSpecAux_nonblank (delims : List Char) :
    ∀ (cs acc : List Char) (x : List Char),
      x ∈ splitSpecAux delims cs acc → nonblank x = true := by
  intro cs
  induction cs with
  | nil =>
    intro acc x hx
    by_cases hb : nonblank acc
    · simp [splitSpecAux, hb] at hx
      simpa [hx] using hb
    · simp [splitSpecAux, hb] at hx
  | cons c cs ih =>
    intro acc x hx
    by_cases h : c ∈ delims
    · simp only [splitSpecAux, if_pos h, List.mem_append] at hx
      rcases hx with h1 | h2
      · by_cases hb : nonblank (acc ++ [c])
        · simp [hb] at h1
          simpa [h1] using hb
        · simp [hb] at h1
      · exact ih [] x h2
    · simp only [splitSpecAux, if_neg h] at hx
      exact ih (acc ++ [c]) x hx

lemma filter_splitSpecAux (delims : List Char) (cs acc : List Char) :
    (splitSpecAux delims cs acc).filter nonblank = splitSpecAux delims cs acc :=
  List.filter_eq_self.mpr (fun x hx => splitSpecAux_nonblank delims cs acc x hx)

/-- On a supported language, the source's split-and-reconstruct implementation
computes exactly the delimiter scan described by the specification. -/
lemma splitIntoSentences_eq_splitSpec (text : List Char) (l : String)
    (ds : List Char) (h : sentenceDelimiters l = some ds) :
    splitIntoSentences text (some l) = splitSpec ds text := by
  simp only [splitIntoSentences, h]
  have h2 := pairUp_consHead_splitCapture ds text []
  rw [consHead_nil_of_ne _ (splitCapture_ne_nil ds text)] at h2
  rw [h2]
  exact filter_splitSpecAux ds text []

/-- Every sentence the splitter emits has a non-empty trim. -/
lemma nonblank_of_mem_split (text : List Char) (lang : Option String)
    (s : List Char) (h : s ∈ splitIntoSentences text lang) : nonblank s = true := by
  cases lang with
  | none =>
    by_cases hb : nonblank text
    · simp [splitIntoSentences, hb] at h
      simpa [h] using hb
    · simp [splitIntoSentences, hb] at h
  | some l =>
    cases hd : sentenceDelimiters l with
    | none =>
      by_cases hb : nonblank text
      · simp [splitIntoSentences, hd, hb] at h
        simpa [h] using hb
      · simp [splitIntoSentences, hd, hb] at h
    | some ds =>
      rw [splitIntoSentences_eq_splitSpec text l ds hd] at h
      exact splitSpecAux_nonblank ds text [] s h

/-! ### Lemmas about the segment reconciler -/

/-- Reconciling a sentence list against segments that carry exactly those
texts returns the segments unchanged (every index takes the cache-hit path). -/
lemma updateLoop_map_text (prev : List TranslationSegment) :
    updateLoop prev (prev.map TranslationSegment.text) = prev := by
  induction prev with
  | nil => rfl
  | cons e es ih => simp [updateLoop, ih]

/-- Index-wise description of the reconciliation loop when both an existing
segment and a new sentence are present at position `i`. -/
lemma updateLoop_getElem (existing : List TranslationSegment)
    (sentences : List (List Char)) (i : Nat) (e : TranslationSegment)
    (s : List Char) (he : existing[i]? = some e) (hs : sentences[i]? = some s) :
    (updateLoop existing sentences)[i]? =
      some (if e.text = s then e
            else { e with text := s, needsTranslation := nonblank s }) := by
  induction i generalizing existing sentences with
  | zero =>
    cases sentences with
    | nil => simp at hs
    | cons s0 ss =>
      cases existing with
      | nil => simp at he
      | cons e0 es =>
        simp at he hs
        subst he; subst hs
        simp [updateLoop]
  | succ n ih =>
    cases sentences with
    | nil => simp at hs
    | cons s0 ss =>
      cases existing with
      | nil => simp at he
      | cons e0 es =>
        simp at he hs
        simpa [updateLoop] using ih es ss he hs

lemma mem_of_getElem?_eq_some {α : Type} :
    ∀ (l : List α) (i : Nat) (a : α), l[i]? = some a → a ∈ l := by
  intro l
  induction l with
  | nil => intro i a h; simp at h
  | cons x xs ih =>
    intro i a h
    cases i with
    | zero => simp at h; simp [h]
    | succ n =>
      simp only [List.getElem?_cons_succ] at h
      exact List.mem_cons_of_mem x (ih n a h)

/-! ### Lemmas about the timeline upsert -/

lemma segKey_eq_iff (a b : RealtimeSegment) :
    segKey a = segKey b ↔ a.resultId = b.resultId ∧ a.source = b.source := by
  simp [segKey, Prod.ext_iff]

/-- Keys occurring after an upsert occurred before, or belong to the upserted
update. -/
lemma mem_map_segKey_upsertGo (n : RealtimeSegment) (t : List Char) :
    ∀ (prev : List RealtimeSegment) (k : String × Source),
      k ∈ (upsertGo n t prev).map segKey → k ∈ prev.map segKey ∨ k = segKey n := by
  intro prev
  induction prev with
  | nil =>
    intro k hk
    simp [upsertGo, segKey] at hk
    exact Or.inr (by simp [segKey, hk])
  | cons seg rest ih =>
    intro k hk
    by_cases hc : seg.resultId = n.resultId ∧ seg.source = n.source
    · simp only [upsertGo, if_pos hc, List.map_cons, List.mem_cons] at hk
      rcases hk with hk | hk
      · exact Or.inr (by simpa [segKey] using hk)
      · exact Or.inl (by simp [hk])
    · simp only [upsertGo, if_neg hc, List.map_cons, List.mem_cons] at hk
      rcases hk with hk | hk
      · exact Or.inl (by simp [hk])
      · rcases ih k hk with h | h
        · exact Or.inl (by simp [h])
        · exact Or.inr h

/-- An upsert preserves distinctness of the `(resultId, source)` keys. -/
lemma nodup_map_segKey_upsertGo (n : RealtimeSegment) (t : List Char) :
    ∀ (prev : List RealtimeSegment), (prev.map segKey).Nodup →
      ((upsertGo n t prev).map segKey).Nodup := by
  intro prev
  induction prev with
  | nil => intro _; simp [upsertGo]
  | cons seg rest ih =>
    intro h
    simp only [List.map_cons, List.nodup_cons] at h
    by_cases hc : seg.resultId = n.resultId ∧ seg.source = n.source
    · have hkey : segKey seg = segKey n := (segKey_eq_iff seg n).mpr hc
      simp only [upsertGo, if_pos hc, List.map_cons, List.nodup_cons]
      constructor
      · have hrec : ∀ x : List TranslationSegment,
            segKey { n with translationSegments := x } = segKey n := fun _ => rfl
        rw [hrec, ← hkey]
        exact h.1
      · exact h.2
    · simp only [upsertGo, if_neg hc, List.map_cons, List.nodup_cons]
      refine ⟨?_, ih h.2⟩
      intro hmem
      rcases mem_map_segKey_upsertGo n t rest (segKey seg) hmem with hm | hm
      · exact h.1 hm
      · exact hc ((segKey_eq_iff seg n).mp hm)

/-- Upsert of an update whose key matches entry `e`, where `e` is the first
entry with that key: the entry is replaced in place. -/
lemma upsertGo_replace (n : RealtimeSegment) (t : List Char) :
    ∀ (l1 : List RealtimeSegment) (e : RealtimeSegment) (l2 : List RealtimeSegment),
      (∀ e' ∈ l1, segKey e' ≠ segKey n) → segKey e = segKey n →
      upsertGo n t (l1 ++ e :: l2) =
        l1 ++ { n with translationSegments :=
                         updateTranslationSegments t n.languageCode
                           e.translationSegments } :: l2 := by
  intro l1
  induction l1 with
  | nil =>
    intro e l2 _ hkey
    have hc := (segKey_eq_iff e n).mp hkey
    simp [upsertGo, hc]
  | cons a l1 ih =>
    intro e l2 hne hkey
    have ha : ¬(a.resultId = n.resultId ∧ a.source = n.source) := by
      intro hc
      exact hne a (List.mem_cons_self a l1) ((segKey_eq_iff a n).mpr hc)
    simp only [List.cons_append, upsertGo, if_neg ha, List.append_eq]
    rw [ih e l2 (fun e' he' => hne e' (List.mem_cons_of_mem a he')) hkey]

/-- Upsert of an update with a fresh key: the update is appended, reconciled
against an empty previous-segment list. -/
lemma upsertGo_append (n : RealtimeSegment) (t : List Char) :
    ∀ (prev : List RealtimeSegment),
      (∀ e' ∈ prev, segKey e' ≠ segKey n) →
      upsertGo n t prev =
        prev ++ [{ n with translationSegments :=
                            updateTranslationSegments t n.languageCode [] }] := by
  intro prev
  induction prev with
  | nil => intro _; simp [upsertGo]
  | cons a rest ih =>
    intro hne
    have ha : ¬(a.resultId = n.resultId ∧ a.source = n.source) := by
      intro hc
      exact hne a (List.mem_cons_self a rest) ((segKey_eq_iff a n).mpr hc)
    simp only [upsertGo, if_neg ha, List.cons_append]
    rw [ih (fun e' he' => hne e' (List.mem_cons_of_mem a he'))]

/-! ### Claim theorems -/

/-- C5: on a supported language (`ja-JP` or `en-US`, the keys of
`SENTENCE_DELIMITERS`), `splitIntoSentences` closes the accumulated span at
each delimiter occurrence keeping the delimiter, emits the trailing
non-terminated remainder, and drops whitespace-only or empty spans
(`splitSpec` is that scan verbatim); and `"こんにちは。今日は晴れです。"` with
`ja-JP` splits into exactly `["こんにちは。", "今日は晴れです。"]`. -/
theorem c5_split_supported_characterisation :
    (∀ (text : List Char) (l : String) (ds : List Char),
      sentenceDelimiters l = some ds →
      splitIntoSentences text (some l) = splitSpec ds text) ∧
    splitIntoSentences "こんにちは。今日は晴れです。".toList (some "ja-JP") =
      ["こんにちは。".toList, "今日は晴れです。".toList] :=
  ⟨fun text l ds h => splitIntoSentences_eq_splitSpec text l ds h, by decide⟩

/-- C5 witness: the characterisation evaluated on the Japanese example. -/
theorem c5_witness :
    sentenceDelimiters "ja-JP" = some ['。', '?'] ∧
    splitIntoSentences "こんにちは。今日は晴れです。".toList (some "ja-JP") =
      splitSpec ['。', '?'] "こんにちは。今日は晴れです。".toList :=
  ⟨by decide, c5_split_supported_characterisation.1 _ _ _ (by decide)⟩

/-- C6 counterexample: for an unsupported language the source returns the
original text, not the trimmed text, as the single segment: on `" a "` with
`fr-FR` the result is `[" a "]`, which differs from `[" a ".trim()] = ["a"]`
asserted by the claim. -/
theorem c6_counterexample :
    splitIntoSentences " a ".toList (some "fr-FR") ≠ [trimChars " a ".toList] := by
  decide

/-- C6 amended: for an absent or unsupported language code, `splitIntoSentences`
returns the whole text unchanged (not trimmed) as a one-element sequence when
its trim is non-empty, and the empty sequence for empty or whitespace-only
input; `"Bonjour. Ça va?"` with `fr-FR` yields one untouched segment. -/
theorem c6_unsupported_fallback_amended :
    (∀ (text : List Char) (lang : Option String),
      supportsSentenceTranslation lang = false →
      splitIntoSentences text lang = if nonblank text then [text] else []) ∧
    splitIntoSentences "Bonjour. Ça va?".toList (some "fr-FR") =
      ["Bonjour. Ça va?".toList] ∧
    splitIntoSentences "   ".toList (some "fr-FR") = [] ∧
    splitIntoSentences [] none = [] := by
  refine ⟨?_, by decide, by decide, by decide⟩
  intro text lang h
  cases lang with
  | none => rfl
  | some l =>
    cases hd : sentenceDelimiters l with
    | some ds => simp [supportsSentenceTranslation, hd] at h
    | none => simp [splitIntoSentences, hd]

/-- C6 witness: the amended fallback rule evaluated on `" a "` with `fr-FR`. -/
theorem c6_witness :
    supportsSentenceTranslation (some "fr-FR") = false ∧
    splitIntoSentences " a ".toList (some "fr-FR") =
      (if nonblank " a ".toList then [" a ".toList] else []) :=
  ⟨by decide, c6_unsupported_fallback_amended.1 _ _ (by decide)⟩

/-- C4: when the new text re-splits into exactly the previous segments' texts,
reconciliation returns the previous records unchanged (same translation,
`lastTranslatedText` and `requestTimestamp`, no `needsTranslation` flips). -/
theorem c4_noop_stability :
    ∀ (text : List Char) (lang : Option String) (prev : List TranslationSegment),
      splitIntoSentences text lang = prev.map TranslationSegment.text →
      updateTranslationSegments text lang prev = prev := by
  intro text lang prev h
  unfold updateTranslationSegments
  rw [h]
  exact updateLoop_map_text prev

/-- Previous-segment list for the C4 witness: one already-translated sentence. -/
def c4Prev : List TranslationSegment :=
  [⟨"A.".toList, false, some "x".toList, some "A.".toList, some 7⟩]

/-- C4 witness: the no-op update `"A."` over an already-translated `"A."`. -/
theorem c4_witness :
    splitIntoSentences "A.".toList (some "en-US") = c4Prev.map TranslationSegment.text ∧
    updateTranslationSegments "A.".toList (some "en-US") c4Prev = c4Prev :=
  ⟨by decide, c4_noop_stability _ _ _ (by decide)⟩

/-- C7: target-language resolution. In bidirectional mode a detection equal to
the primary language targets the secondary, a (non-empty) detection equal to
the secondary targets the primary, and anything else — including no
detection — falls back to the secondary; unidirectional mode always targets
the secondary; together with the three concrete scenario instances. -/
theorem c7_translation_target_resolution :
    (∀ p s : String, getTranslationTarget "bidirectional" (some p) p s = s) ∧
    (∀ p s d : String, d = s → d ≠ "" →
      getTranslationTarget "bidirectional" (some d) p s = p) ∧
    (∀ p s d : String, d ≠ p → d ≠ s →
      getTranslationTarget "bidirectional" (some d) p s = s) ∧
    (∀ p s : String, getTranslationTarget "bidirectional" none p s = s) ∧
    (∀ (p s : String) (d : Option String),
      getTranslationTarget "unidirectional" d p s = s) ∧
    getTranslationTarget "bidirectional" (some "en-US") "en-US" "ja-JP" = "ja-JP" ∧
    getTranslationTarget "bidirectional" (some "ja-JP") "en-US" "ja-JP" = "en-US" ∧
    getTranslationTarget "bidirectional" (some "fr-FR") "en-US" "ja-JP" = "ja-JP" := by
  refine ⟨?_, ?_, ?_, ?_, ?_, by decide, by decide, by decide⟩
  · intro p s
    by_cases hp : p = "" <;> simp [getTranslationTarget, hp]
  · intro p s d hds hne
    subst hds
    by_cases hp : d = p <;> simp [getTranslationTarget, hne, hp]
  · intro p s d hdp hds
    by_cases hne : d = "" <;> simp [getTranslationTarget, hne, hdp, hds]
  · intro p s
    rfl
  · intro p s d
    cases d with
    | none => rfl
    | some x =>
      simp only [getTranslationTarget]
      rw [if_pos (Or.inl (by decide))]

/-- C7 witness: the detected-equals-secondary rule evaluated on the scenario
instance (`detected = "ja-JP"`, primary `en-US`, secondary `ja-JP`). -/
theorem c7_witness :
    ("ja-JP" : String) = "ja-JP" ∧ ("ja-JP" : String) ≠ "" ∧
    getTranslationTarget "bidirectional" (some "ja-JP") "en-US" "ja-JP" = "en-US" :=
  ⟨rfl, by decide, c7_translation_target_resolution.2.1 "en-US" "ja-JP" "ja-JP" rfl (by decide)⟩

/-- Concrete state for the C8 counterexample: a cleared-out timeline but a
non-empty side index. -/
def c8State : CoreState := ⟨[], 3, [("r1-0", 5)]⟩

/-- C8 counterexample: `handleClear` resets the timeline and the session id
but never touches `latestRequestTimestamps` (no call in the handler writes the
side index), so the side index is not empty afterwards, contradicting the
claim that all core state including the side index is reset. -/
theorem c8_counterexample :
    (handleClear c8State).latestRequestTimestamps ≠ [] := by decide

/-- C8 amended: after clear the timeline collection is empty and `sessionId`
is back to 0, but the side index mapping each (entry key, sentence index) pair
to its latest `RequestTimestamp` is left unchanged, not emptied. -/
theorem c8_clear_amended :
    ∀ st : CoreState,
      (handleClear st).realtimeSegments = [] ∧
      (handleClear st).currentSessionId = 0 ∧
      (handleClear st).latestRequestTimestamps = st.latestRequestTimestamps :=
  fun _ => ⟨rfl, rfl, rfl⟩

/-- C9: a failed translation call — the collaborator resolved to `null` or
threw, both modelled by `result = none` since the `catch` block only logs —
performs no mutation at resolution, whatever side-index snapshot the gate
reads: the whole state, in particular the sentence's `translation`,
`lastTranslatedText` and `needsTranslation` fields, is exactly what it was
before, so a sentence with `needsTranslation = true` stays due for retry on
the next tick. -/
theorem c9_failure_no_mutation :
    ∀ (st : CoreState) (closureTs : List (String × Nat)) (rid : String)
      (src : Source) (i ts : Nat) (txt : List Char),
      resolveRequest st closureTs rid src i ts txt none = st := by
  intro st closureTs rid src i ts txt
  simp [resolveRequest]

/-- C10 counterexample: `supportsSentenceTranslation` is a plain
`languageCode in SENTENCE_DELIMITERS` key test with no primary-subtag
fallback: `"ja-ZZ"` shares the primary subtag `ja` with the supported tag
`ja-JP` — so the claimed fallback rule accepts it — but the code rejects it. -/
theorem c10_counterexample :
    supportsSentenceTranslation (some "ja-ZZ") = false ∧
    supportsLanguageClaim (some "ja-ZZ") = true := by decide

/-- C10 amended: `supportsSentenceTranslation(code)` returns true exactly when
the code is present and is literally one of the supported tags `ja-JP` or
`en-US`; an absent code returns false; there is no primary-subtag fallback. -/
theorem c10_exact_match_amended :
    ∀ c : Option String,
      supportsSentenceTranslation c = (c == some "ja-JP" || c == some "en-US") := by
  intro c
  cases c with
  | none => rfl
  | some l =>
    by_cases h1 : l = "ja-JP"
    · simp [supportsSentenceTranslation, sentenceDelimiters, h1]
    · by_cases h2 : l = "en-US" <;>
        simp [supportsSentenceTranslation, sentenceDelimiters, h1, h2]

/-- Previous segments of the C2 example: two translated sentences. -/
def c2Prev : List TranslationSegment :=
  [⟨"A.".toList, false, some "x".toList, none, none⟩,
   ⟨"B.".toList, false, some "y".toList, none, none⟩]

/-- C2 counterexample: reconciling the C2 example never yields `"C."` at
index 1. With `en-US` the split of `"A. C."` is `["A.", " C."]` — the space
after the delimiter stays attached to the next sentence and sentences are not
trimmed — so index 1 gets text `" C."`; with `ja-JP` or no language the text
does not split at `"."` at all. -/
theorem c2_counterexample :
    (updateTranslationSegments "A. C.".toList (some "en-US") c2Prev).map
        TranslationSegment.text ≠ ["A.".toList, "C.".toList] ∧
    (updateTranslationSegments "A. C.".toList (some "ja-JP") c2Prev).map
        TranslationSegment.text ≠ ["A.".toList, "C.".toList] ∧
    (updateTranslationSegments "A. C.".toList none c2Prev).map
        TranslationSegment.text ≠ ["A.".toList, "C.".toList] := by decide

/-- C2 amended: whenever the new sentence at an index differs from the
previous segment's text there, reconciliation keeps the previous translation
fields as a stale reference, sets `text` to the new sentence and sets
`needsTranslation` to true; on the example (`en-US`), index 0 is untouched
(translation `"x"`, `needsTranslation` false) and index 1 becomes
`needsTranslation` true with text `" C."` — with the leading space the
splitter preserves — keeping translation `"y"` as the stale reference. -/
theorem c2_change_isolation_amended :
    (∀ (text : List Char) (lang : Option String) (prev : List TranslationSegment)
        (i : Nat) (e : TranslationSegment) (s : List Char),
      prev[i]? = some e → (splitIntoSentences text lang)[i]? = some s →
      e.text ≠ s →
      (updateTranslationSegments text lang prev)[i]? =
        some { e with text := s, needsTranslation := true }) ∧
    updateTranslationSegments "A. C.".toList (some "en-US") c2Prev =
      [⟨"A.".toList, false, some "x".toList, none, none⟩,
       ⟨" C.".toList, true, some "y".toList, none, none⟩] := by
  constructor
  · intro text lang prev i e s he hs hne
    have h1 := updateLoop_getElem prev (splitIntoSentences text lang) i e s he hs
    rw [if_neg hne] at h1
    have hmem : s ∈ splitIntoSentences text lang :=
      mem_of_getElem?_eq_some _ i s hs
    have h2 : nonblank s = true := nonblank_of_mem_split text lang s hmem
    rw [h2] at h1
    simpa [updateTranslationSegments] using h1
  · decide

/-- C2 witness: the differing-text rule evaluated at index 1 of the example. -/
theorem c2_witness :
    c2Prev[1]? = some ⟨"B.".toList, false, some "y".toList, none, none⟩ ∧
    (splitIntoSentences "A. C.".toList (some "en-US"))[1]? = some " C.".toList ∧
    ("B.".toList : List Char) ≠ " C.".toList ∧
    (updateTranslationSegments "A. C.".toList (some "en-US") c2Prev)[1]? =
      some ⟨" C.".toList, true, some "y".toList, none, none⟩ :=
  ⟨by decide, by decide, by decide,
   c2_change_isolation_amended.1 "A. C.".toList (some "en-US") c2Prev 1
     ⟨"B.".toList, false, some "y".toList, none, none⟩ " C.".toList
     (by decide) (by decide) (by decide)⟩

/-- C3: (a) every sequence of upserts from the empty collection keeps the
`(resultId, source)` keys pairwise distinct — at most one entry per key;
(b) an upsert whose key matches an existing entry (the first such entry)
replaces it wholesale with the update, its `translationSegments` reconciled
from the existing entry's segments against the update's concatenated text;
(c) an upsert with a fresh key appends the update reconciled against the
empty previous-segment list. -/
theorem c3_keyed_upsert :
    (∀ updates : List RealtimeSegment,
      ((updates.foldl updateRealtimeSegments []).map segKey).Nodup) ∧
    (∀ (l1 l2 : List RealtimeSegment) (e n : RealtimeSegment),
      (∀ e' ∈ l1, segKey e' ≠ segKey n) → segKey e = segKey n →
      updateRealtimeSegments (l1 ++ e :: l2) n =
        l1 ++ { n with translationSegments :=
                         updateTranslationSegments (currentTextOf n) n.languageCode
                           e.translationSegments } :: l2) ∧
    (∀ (prev : List RealtimeSegment) (n : RealtimeSegment),
      (∀ e' ∈ prev, segKey e' ≠ segKey n) →
      updateRealtimeSegments prev n =
        prev ++ [{ n with translationSegments :=
                            updateTranslationSegments (currentTextOf n)
                              n.languageCode [] }]) := by
  refine ⟨?_, ?_, ?_⟩
  · intro updates
    have key : ∀ (us prev : List RealtimeSegment), (prev.map segKey).Nodup →
        ((us.foldl updateRealtimeSegments prev).map segKey).Nodup := by
      intro us
      induction us with
      | nil => intro prev h; exact h
      | cons u us ih =>
        intro prev h
        exact ih _ (nodup_map_segKey_upsertGo u (currentTextOf u) prev h)
    exact key updates [] (by simp)
  · intro l1 l2 e n h1 h2
    exact upsertGo_replace n (currentTextOf n) l1 e l2 h1 h2
  · intro prev n h1
    exact upsertGo_append n (currentTextOf n) prev h1

/-- Existing timeline entry for the C3 witness. -/
def c3Existing : RealtimeSegment :=
  ⟨"r1", Source.microphone, 0, 1, true, [⟨"Hi.".toList, none⟩], 1, some "en-US",
   [⟨"Hi.".toList, true, none, none, none⟩]⟩

/-- Revised update with the same `(resultId, source)` key for the C3 witness. -/
def c3Update : RealtimeSegment :=
  ⟨"r1", Source.microphone, 0, 2, false, [⟨"Hi. Bye.".toList, none⟩], 1,
   some "en-US", []⟩

/-- C3 witness: the replacement rule evaluated on a concrete in-place
revision. -/
theorem c3_witness :
    segKey c3Existing = segKey c3Update ∧
    updateRealtimeSegments ([] ++ c3Existing :: []) c3Update =
      [] ++ { c3Update with
                translationSegments :=
                  updateTranslationSegments (currentTextOf c3Update)
                    c3Update.languageCode c3Existing.translationSegments } :: [] :=
  ⟨by decide, c3_keyed_upsert.2.1 [] [] c3Existing c3Update
      (fun e' he' => absurd he' (List.not_mem_nil e')) (by decide)⟩

/-- Timeline entry holding the sentence translated in the C1 scenario. -/
def c1Entry : RealtimeSegment :=
  ⟨"r1", Source.microphone, 0, 1, true, [⟨"Hello.".toList, none⟩], 1,
   some "en-US", [⟨"Hello.".toList, true, none, none, none⟩]⟩

/-- State of the C1 scenario after request R1 (t=100) and then request R2
(t=200) have been issued for sentence 0 of the entry. -/
def c1Issued : CoreState :=
  issueRequest (issueRequest ⟨[c1Entry], 1, []⟩ "r1" Source.microphone 0 100)
    "r1" Source.microphone 0 200

/-- State of the C1 scenario after R2's response (`"two"`) has arrived first
and been committed. The resolving closure is the interval's pinned
`translateSentence` instance, whose captured `latestRequestTimestamps` is the
empty map of the render the dispatch effect last ran in — before either
request of the session was issued. -/
def c1AfterR2 : CoreState :=
  resolveRequest c1Issued [] "r1" Source.microphone 0 200 "Hello.".toList
    (some "two".toList)

/-- C1: the program violates the claimed anti-staleness guarantee. After R1
(t=100) and R2 (t=200) are issued, the current-state side index records
latest 200 for the pair — yet when R1's response arrives after R2's, the gate
reads the closure-captured map (empty, predating both requests), so
`!currentLatestTimestamp` lets R1's result through and it overwrites R2's
committed translation: the final translation is R1's result `"one"`, not
R2's, although 100 < 200. Commit is thus last-response-wins, not gated by
the latest recorded `RequestTimestamp` at commit time. -/
theorem c1_stale_response_committed :
    mapGet c1AfterR2.latestRequestTimestamps (timestampKey "r1" 0) = some 200 ∧
    (resolveRequest c1AfterR2 [] "r1" Source.microphone 0 100 "Hello.".toList
        (some "one".toList)).realtimeSegments.map
      (fun seg => seg.translationSegments.map TranslationSegment.translation) =
      [[some "one".toList]] := by decide
